import Mathlib

/-!
Verification of the PDF field extraction and canonicalization pipeline of
`src/parser/pdf_tools.py`.

Strings are modelled by Lean `String` (a list of unicode code points, matching
Python's view of `str` for the ASCII data handled here).  Python `dict`s are
modelled as association lists in insertion order: assigning to an existing key
updates it in place, assigning to a fresh key appends it at the end, exactly as
Python 3.7+ dictionaries behave.
-/

/-- Python's default `str.strip()` whitespace characters (ASCII fragment). -/
def pyIsSpace (c : Char) : Bool :=
  c == ' ' || c == '\t' || c == '\n' || c == '\r' || c == '\x0b' || c == '\x0c'

/-- `str.strip()` on the underlying character list. -/
def pyStrip (l : List Char) : List Char :=
  ((l.dropWhile pyIsSpace).reverse.dropWhile pyIsSpace).reverse

/-- `s.startswith(p)` as used by the source. -/
def strStartsWith (p s : String) : Bool :=
  p.data.isPrefixOf s.data

/-- Python's `needle in haystack` substring test, on character lists. -/
def isSubChars (needle : List Char) : List Char → Bool
  | [] => needle.isEmpty
  | c :: rest => needle.isPrefixOf (c :: rest) || isSubChars needle rest

/-- Python's `needle in haystack` substring test on strings. -/
def isSubstr (needle haystack : String) : Bool :=
  isSubChars needle.data haystack.data

/-- `str.lower()` (ASCII model, as in the field names handled here). -/
def strLower (s : String) : String :=
  ⟨s.data.map Char.toLower⟩

/-- `str.upper()` (ASCII model). -/
def strUpper (s : String) : String :=
  ⟨s.data.map Char.toUpper⟩

/-- `s.split(sep)` for a single-character separator, on character lists.
Mirrors Python: `"".split("_") = [""]`, separators at the ends produce empty
segments. -/
def splitOnChar (sep : Char) : List Char → List (List Char)
  | [] => [[]]
  | c :: rest =>
    let r := splitOnChar sep rest
    if c == sep then [] :: r
    else
      match r with
      | h :: t => (c :: h) :: t
      | [] => [[c]]

/-- The part of `s` before the first occurrence of `sep` — `s.split(sep)[0]`
for a non-empty separator.  When `sep` does not occur, the whole of `s`. -/
def takeBeforeSub (sep : List Char) : List Char → List Char
  | [] => []
  | c :: rest =>
    if sep.isPrefixOf (c :: rest) then []
    else c :: takeBeforeSub sep rest

/-- `s.split('.')[-1]`: the last dot-separated segment of a name. -/
def lastSegment (s : String) : String :=
  match (splitOnChar '.' s.data).getLast? with
  | some l => ⟨l⟩
  | none => s

/-- Decimal digit character for `n < 10`. -/
def digitChar (n : Nat) : Char :=
  Char.ofNat (48 + n)

/-- Fuel-driven decimal printing helper (the fuel `n + 1` always suffices). -/
def natToCharsGo : Nat → Nat → List Char
  | 0, _ => []
  | fuel + 1, n =>
    if n < 10 then [digitChar n]
    else natToCharsGo fuel (n / 10) ++ [digitChar (n % 10)]

/-- Python's `str(n)` for a natural number. -/
def natToChars (n : Nat) : List Char :=
  natToCharsGo (n + 1) n

/-- Python's `int(s)` for a string of decimal digits. -/
def charsToNat (l : List Char) : Nat :=
  l.foldl (fun acc c => acc * 10 + (c.toNat - 48)) 0

/-- A Python `dict[str, str]` in insertion order. -/
abbrev Dict := List (String × String)

/-- `d.get(k)`: the value at the first (only) occurrence of key `k`. -/
def pyGet : Dict → String → Option String
  | [], _ => none
  | (a, b) :: t, k => if a == k then some b else pyGet t k

/-- `d[k] = v`: update the key in place if present, else append it. -/
def pySet : Dict → String → String → Dict
  | [], k, v => [(k, v)]
  | (a, b) :: t, k, v =>
    if a == k then (k, v) :: t else (a, b) :: pySet t k v

/-- `k in d`. -/
def pyMem : Dict → String → Bool
  | [], _ => false
  | (a, _) :: t, k => a == k || pyMem t k

/-- `d.setdefault(k, v)` restricted to its effect on the dictionary. -/
def pySetdefault (d : Dict) (k v : String) : Dict :=
  if pyMem d k then d else d ++ [(k, v)]

/-- `list(d.keys())` in insertion order. -/
def dictKeys (d : Dict) : List String :=
  d.map Prod.fst

/-- Python's `a or b` on two optional strings, where `None` and `""` are
falsy: the left operand when it is a non-empty string, otherwise the right
operand unchanged. -/
def pyOrStr (a b : Option String) : Option String :=
  match a with
  | some s => if s == "" then b else some s
  | none => b

/-- `value_to_fields.setdefault(field_value, []).append(field_name)`:
grouping of field names by value, in first-occurrence order of the values. -/
def groupAdd : List (String × List String) → String → String → List (String × List String)
  | [], value, name => [(value, [name])]
  | (v0, ns) :: t, value, name =>
    if v0 == value then (v0, ns ++ [name]) :: t
    else (v0, ns) :: groupAdd t value name

/-- Stable insertion for `sorted(_, key=len)` (ascending, ties keep the
earlier element first). -/
def insAscLen (x : String) : List String → List String
  | [] => [x]
  | y :: ys => if x.length < y.length then x :: y :: ys else y :: insAscLen x ys

/-- `sorted(l, key=len)`: stable ascending sort by string length. -/
def sortAscLen (l : List String) : List String :=
  l.foldl (fun acc x => insAscLen x acc) []

/-- Stable insertion for `sorted(_, key=len, reverse=True)` (descending, ties
keep the earlier element first). -/
def insDescLen (x : String) : List String → List String
  | [] => [x]
  | y :: ys => if y.length < x.length then x :: y :: ys else y :: insDescLen x ys

/-- `sorted(l, key=len, reverse=True)`: stable descending sort by length. -/
def sortDescLen (l : List String) : List String :=
  l.foldl (fun acc x => insDescLen x acc) []

/-- `_normalize_lookup_key` of `pdf_tools.py`: strip outer whitespace, drop
double quotes, lowercase, and keep only alphanumeric characters. -/
def normalize_lookup_key (key : String) : String :=
  let cleaned := ((pyStrip key.data).filter (fun c => c != '"')).map Char.toLower
  ⟨cleaned.filter Char.isAlphanum⟩

/-- `_strip_tgmd_trial_suffix` of `pdf_tools.py`: drop an explicit `_t…`
trial marker and un-bump the middle digit of a 3-digit task code whose middle
digit is `2` (e.g. `TGMD_121_Hop` → `TGMD_111_Hop`). -/
def strip_tgmd_trial_suffix (name : String) : String :=
  if !(strStartsWith "TGMD_" name) then name
  else
    let base : List Char := takeBeforeSub ("_t".data) name.data
    match splitOnChar '_' base with
    | p0 :: p1 :: p2 :: rest =>
      match p1 with
      | [c0, c1, c2] =>
        if c0.isDigit && c1.isDigit && c2.isDigit && c1 == '2' then
          ⟨List.intercalate ['_'] (p0 :: natToChars (charsToNat [c0, c1, c2] - 10) :: p2 :: rest)⟩
        else ⟨base⟩
      | _ => ⟨base⟩
    | _ => ⟨base⟩

/-- `_choose_best_field_name` of `pdf_tools.py`: the shortest non-placeholder
name when one exists, else the shortest name (first in insertion order among
ties; the source never calls this on an empty list, where Python would raise,
so the empty case returns `""`). -/
def choose_best_field_name (field_names : List String) : String :=
  let meaningful := field_names.filter (fun n => !(strStartsWith "field_" n))
  match sortAscLen meaningful with
  | n :: _ => n
  | [] =>
    match sortAscLen field_names with
    | n :: _ => n
    | [] => ""

/-- `deduplicate_fields` of `pdf_tools.py`: group fields by value; singleton
groups pass through; groups free of `field_` placeholders are kept whole;
otherwise the group collapses onto the best name.  A final pass folds a
`term_`-prefixed name onto its base name unless the base already exists. -/
def deduplicate_fields (fields : Dict) : Dict :=
  let value_to_fields : List (String × List String) :=
    fields.foldl (fun acc kv => groupAdd acc kv.2 kv.1) []
  let deduplicated : Dict :=
    value_to_fields.foldl
      (fun acc vns =>
        match vns.2 with
        | [single] => pySet acc single vns.1
        | names =>
          if names.all (fun n => !(strStartsWith "field_" n)) then
            names.foldl (fun a n => pySet a n vns.1) acc
          else
            pySet acc (choose_best_field_name names) vns.1)
      []
  deduplicated.foldl
    (fun acc kv =>
      if strStartsWith "term_" kv.1 then
        let base := ⟨kv.1.data.drop 5⟩
        if pyMem deduplicated base || pyMem acc base then acc
        else pySet acc base kv.2
      else pySet acc kv.1 kv.2)
    []

/-- Claim C1 (corrected): on `{"field_003": "4", "ERV_P1": "4", "ERV_P2": "4"}`
the claimed result keeps both `ERV_P1` and `ERV_P2`; in fact the group of the
shared value `"4"` contains the placeholder `field_003`, so the whole group
collapses onto the single best name `ERV_P1` and `ERV_P2` is dropped. -/
theorem claim_C1_counterexample :
    pyMem (deduplicate_fields
      [("field_003", "4"), ("ERV_P1", "4"), ("ERV_P2", "4")]) "ERV_P2" = false := by
  decide

/-- Claim C1 (amended): deduplication of
`{"field_003": "4", "ERV_P1": "4", "ERV_P2": "4"}` collapses the whole group of
value `"4"` onto the single best (shortest meaningful, earliest) name: the
result is exactly `{"ERV_P1": "4"}`, dropping both `field_003` and `ERV_P2`. -/
theorem claim_C1_dedup_collapse :
    deduplicate_fields [("field_003", "4"), ("ERV_P1", "4"), ("ERV_P2", "4")]
      = [("ERV_P1", "4")] := by
  decide

/-- `_fuzzy_find_in_mapping` of `pdf_tools.py`: normalize the search text and
return the first key of `sorted_keys` whose normalized form is a substring of
it. -/
def fuzzy_find_in_mapping (text : String) (sorted_keys : List String) : Option String :=
  let nt := normalize_lookup_key text
  sorted_keys.find? (fun key => isSubstr (normalize_lookup_key key) nt)

/-- The `HEADER_MAPPING` table of `pdf_tools.py`. -/
def HEADER_MAPPING : Dict :=
  [("core id", "core-id"),
   ("student name", "child-name"),
   ("class id 25/26", "class-id"),
   ("student id", "student-id"),
   ("school id", "school-id"),
   ("school code", "school-id"),
   ("school name (chinese)", "school-name"),
   ("class id", "class-id"),
   ("actual class name", "class-name"),
   ("gender", "gender"),
   ("group", "group")]

/-- `mapping[found_key]` for a key known to come from `mapping.keys()` (the
source indexes directly; the default can never be reached there). -/
def mappingIndex (m : Dict) (k : String) : String :=
  (pyGet m k).getD ""

/-- `key.upper().startswith("QID")`: the source's test for a QID-style name. -/
def qidPrefixB (k : String) : Bool :=
  strStartsWith "QID" (strUpper k)

/-- The source's `key = key.lower() if key.upper().startswith("QID") else key`
normalization, applied both to resolved keys and to autosave keys. -/
def qidKey (k : String) : String :=
  if qidPrefixB k then strLower k else k

/-- The mapped-key resolution chain of `parse_pdf_to_csv` for a string-valued
field (a plain string exposes no alternate `/TU`/`/TM` name, so
`actual_field_name` is the field name itself): exact normalized lookup /
lower-cased lookup, fuzzy substring match, last-dot-segment retry, TGMD
trial-suffix retry, and finally the `HEADER_MAPPING` display-label fallback.
`None` and the empty string are kept apart exactly as the source's
`is None` checks and truthiness tests do. -/
def resolveMapped (mapping : Dict) (sortedKeys : List String) (actual : String) : Option String :=
  let nf := normalize_lookup_key actual
  let step1 := pyOrStr (pyGet mapping nf) (pyGet mapping (strLower actual))
  let step2 :=
    match step1 with
    | some s => some s
    | none =>
      match fuzzy_find_in_mapping nf sortedKeys with
      | some fk => some (mappingIndex mapping fk)
      | none => none
  let step3 :=
    match step2 with
    | some s => some s
    | none =>
      let ps := lastSegment actual
      if ps == actual then none
      else
        let np := normalize_lookup_key ps
        match pyGet mapping np with
        | some s => some s
        | none =>
          match fuzzy_find_in_mapping np sortedKeys with
          | some fk => some (mappingIndex mapping fk)
          | none => none
  let step4 :=
    match step3 with
    | some s => some s
    | none =>
      if strStartsWith "TGMD_" actual then
        let nb := normalize_lookup_key (strip_tgmd_trial_suffix actual)
        match pyGet mapping nb with
        | some s => some s
        | none =>
          match fuzzy_find_in_mapping nb sortedKeys with
          | some fk => some (mappingIndex mapping fk)
          | none => none
      else none
  match step4 with
  | some s => some s
  | none =>
    let nfield := strLower ⟨(pyStrip actual.data).filter (fun c => c != '"')⟩
    match pyGet HEADER_MAPPING nfield with
    | some s => if s == "" then none else some s
    | none => none

/-- The key under which `parse_pdf_to_csv` records a field: the resolved
mapped key when truthy, else the original name, then QID lower-casing. -/
def finalKey (mapping : Dict) (sortedKeys : List String) (actual : String) : String :=
  let key :=
    match resolveMapped mapping sortedKeys actual with
    | some s => if s == "" then actual else s
    | none => actual
  qidKey key

/-- The source's value processing: `value_str[1:] if value_str.startswith('/')
else value_str`. -/
def stripSlash (v : String) : String :=
  match v.data with
  | '/' :: rest => ⟨rest⟩
  | _ => v

/-- The field-mapping loop of `parse_pdf_to_csv` over string-valued raw
fields: each field is recorded under its `finalKey` with its slash-stripped
value (a string value is never `None`, so the `data[key] = ''` branch for a
valueless descriptor is unreachable here). -/
def mapStage (raw mapping : Dict) : Dict :=
  raw.foldl
    (fun data kv =>
      pySet data (finalKey mapping (sortDescLen (dictKeys mapping)) kv.1) (stripSlash kv.2))
    []

/-- One iteration of the autosave fallback loop of `parse_pdf_to_csv`: the
sidecar field is copied in (under its QID-lower-cased key) only when the
record's value there is absent or empty. -/
def mergeStep (d : Dict) (kv : String × String) : Dict :=
  match pyGet d (qidKey kv.1) with
  | none => pySet d (qidKey kv.1) kv.2
  | some existing => if existing == "" then pySet d (qidKey kv.1) kv.2 else d

/-- The autosave fallback loop of `parse_pdf_to_csv`: each string field of the
sidecar record is copied in (under its QID-lower-cased key) only when the
parsed record's value there is absent or empty. -/
def mergeAutosave (data autosaveFields : Dict) : Dict :=
  autosaveFields.foldl mergeStep data

/-- The record-building core of `parse_pdf_to_csv`: field mapping, optional
autosave gap-filling, then deduplication. -/
def parseCore (raw mapping : Dict) (autosave : Option Dict) : Dict :=
  let data := mapStage raw mapping
  let data :=
    match autosave with
    | some af => mergeAutosave data af
    | none => data
  deduplicate_fields data

/-- The sessionkey integrity block of `parse_pdf_to_csv`: both the match and
the mismatch branch only log — the record is returned untouched (the source's
overwrite is explicitly disabled in server mode). -/
def sessionkeyIntegrity (data : Dict) (canonicalKey : String) : Dict :=
  if canonicalKey == "" then data
  else if pyGet data "sessionkey" == some canonicalKey then data
  else data

/-- The extraction-relevant state of an opened PDF, as `parse_pdf_to_csv`
observes it: the detected form type and the raw field set each strategy would
yield (`getFieldsRes` for `reader.get_fields()`, `annotScanRes` for the page
annotation scan, the `conv…` pair for the pdfcpu-converted document when
conversion succeeds, `xfaXmlFields` for direct XFA XML extraction).  An empty
dictionary models both a failed and an empty strategy, as in the source's
`if not fields` tests. -/
structure PdfModel where
  pdfType : String
  getFieldsRes : Dict
  annotScanRes : Dict
  convOk : Bool
  convGetFieldsRes : Dict
  convAnnotScanRes : Dict
  xfaXmlFields : Dict

/-- `_extract_acro_fields` of `pdf_tools.py`: the direct `get_fields()` result
when non-empty, else the annotation scan's. -/
def extract_acro_fields (getFieldsRes annotScanRes : Dict) : Dict :=
  if getFieldsRes.isEmpty then annotScanRes else getFieldsRes

/-- The raw field set `parse_pdf_to_csv` extracts for a document: AcroForm
uses the acro strategies, XFA uses the converted document's acro strategies
when conversion succeeded and the XFA XML parse otherwise; a form-less
document extracts nothing. -/
def extractedRaw (doc : PdfModel) : Dict :=
  if doc.pdfType == "AcroForm" then
    extract_acro_fields doc.getFieldsRes doc.annotScanRes
  else if doc.pdfType == "XFA" then
    if doc.convOk then extract_acro_fields doc.convGetFieldsRes doc.convAnnotScanRes
    else doc.xfaXmlFields
  else []

/-- `parse_pdf_to_csv` of `pdf_tools.py` over the model: a document that is
neither AcroForm nor XFA raises `'PDF contains no form data'`; an extraction
yielding no fields raises the `'No form fields found…'` error; otherwise the
canonical record is built and the sessionkey integrity check (pure logging)
runs before returning.  `canonicalKey` is the filename-derived key (autosave
sidecar stem when the sidecar exists, else the PDF filename stem). -/
def parse_pdf_to_csv (doc : PdfModel) (mapping : Dict) (autosave : Option Dict)
    (canonicalKey : String) : Except String Dict :=
  if doc.pdfType == "AcroForm" || doc.pdfType == "XFA" then
    if (extractedRaw doc).isEmpty then
      .error "No form fields found in the selected PDF. Please ensure you are using a valid completed survey PDF."
    else
      .ok (sessionkeyIntegrity (parseCore (extractedRaw doc) mapping autosave) canonicalKey)
  else
    .error "PDF contains no form data"

/-- `load_pdf_qualtrics_mapping` of `pdf_tools.py`, taking the decoded JSON
object (internal name → PDF/Qualtrics field name) and building the forward
lookup table: normalized PDF name and normalized internal name each map to the
(TGMD-normalized) internal name, TGMD tasks additionally register both trial
variants, and legacy `TEC_G_`/`TEC_B_` aliases are added for `TEC_F_`/`TEC_M_`
names.  (Only the forward table is modelled; the reverse table is unused by
the parsing pipeline.) -/
def load_pdf_qualtrics_mapping (mapping_data : Dict) : Dict :=
  mapping_data.foldl
    (fun m kv =>
      let internal_name := kv.1
      let pdf_field := kv.2
      if pdf_field == "" then m
      else
        let base := strip_tgmd_trial_suffix internal_name
        let m := pySet m (normalize_lookup_key pdf_field) base
        let m := pySetdefault m (normalize_lookup_key base) base
        let m :=
          if strStartsWith "TGMD_" base then
            let basePdf := strip_tgmd_trial_suffix pdf_field
            let m := pySet m (normalize_lookup_key basePdf) base
            let m := pySet m (normalize_lookup_key (basePdf ++ "_t1")) base
            pySet m (normalize_lookup_key (basePdf ++ "_t2")) base
          else m
        if strStartsWith "TEC_F_" base then
          pySet m (normalize_lookup_key ("TEC_G_" ++ ⟨base.data.drop 6⟩)) base
        else if strStartsWith "TEC_M_" base then
          pySet m (normalize_lookup_key ("TEC_B_" ++ ⟨base.data.drop 6⟩)) base
        else m)
    []

/-- The document of the spec's end-to-end scenario: an AcroForm PDF whose
extracted raw fields are `{"Student ID": "C1001", "QID3": "/Off"}`. -/
def c2Doc : PdfModel :=
  { pdfType := "AcroForm"
    getFieldsRes := [("Student ID", "C1001"), ("QID3", "/Off")]
    annotScanRes := []
    convOk := false
    convGetFieldsRes := []
    convAnnotScanRes := []
    xfaXmlFields := [] }

/-- The mapping table of the end-to-end scenario, as the loader builds it from
the JSON entry `{"student-id": "Student ID"}`. -/
def c2Mapping : Dict :=
  load_pdf_qualtrics_mapping [("student-id", "Student ID")]

/-- Claim C2 (counterexample): the pipeline's record for the scenario is
`{"student-id": "C1001", "qid3": "Off"}`, not the claimed
`{"student-id": "C1001", "qid3": ""}` — the `/Off` value is recorded as the
non-empty string `"Off"`, not as the empty string. -/
theorem claim_C2_counterexample :
    parse_pdf_to_csv c2Doc c2Mapping none "k"
        ≠ Except.ok [("student-id", "C1001"), ("qid3", "")]
      ∧ pyGet (parseCore c2Doc.getFieldsRes c2Mapping none) "qid3" = some "Off" := by
  constructor
  · intro h
    rw [show parse_pdf_to_csv c2Doc c2Mapping none "k"
          = Except.ok [("student-id", "C1001"), ("qid3", "Off")] from rfl] at h
    injection h with h2
    exact absurd h2 (by decide)
  · decide

/-- Claim C2 (amended): for the scenario's AcroForm PDF the output record is
`{"student-id": "C1001", "qid3": "Off"}` — only the leading `/` of the `/Off`
sentinel is stripped, and the remainder `"Off"` is recorded, not absence. -/
theorem claim_C2_slash_stripped :
    parse_pdf_to_csv c2Doc c2Mapping none "k"
      = Except.ok [("student-id", "C1001"), ("qid3", "Off")] := rfl

/-- The mapping table the loader builds from the single TGMD JSON entry
`{"TGMD_111_Hop": "TGMD_111_Hop"}`. -/
def c8Mapping : Dict :=
  load_pdf_qualtrics_mapping [("TGMD_111_Hop", "TGMD_111_Hop")]

/-- The length-descending key order the parser uses with `c8Mapping`. -/
def c8SortedKeys : List String :=
  sortDescLen (dictKeys c8Mapping)

/-- Claim C8: `TGMD_121_Hop`, `TGMD_111_Hop_t2` and `TGMD_111_Hop` all resolve
to the same canonical id — the trial normalizer strips the `_t2` suffix and
subtracts 10 from the bumped 3-digit code `121`, and the resolution chain
recovers `TGMD_111_Hop` for all three names. -/
theorem claim_C8_tgmd_trial_resolution :
    strip_tgmd_trial_suffix "TGMD_111_Hop_t2" = "TGMD_111_Hop"
      ∧ strip_tgmd_trial_suffix "TGMD_121_Hop" = "TGMD_111_Hop"
      ∧ finalKey c8Mapping c8SortedKeys "TGMD_121_Hop" = "TGMD_111_Hop"
      ∧ finalKey c8Mapping c8SortedKeys "TGMD_111_Hop_t2" = "TGMD_111_Hop"
      ∧ finalKey c8Mapping c8SortedKeys "TGMD_111_Hop" = "TGMD_111_Hop" := by
  decide

/-- The sessionkey integrity block never changes the record: both branches of
the source only log. -/
theorem sessionkeyIntegrity_id (data : Dict) (canonicalKey : String) :
    sessionkeyIntegrity data canonicalKey = data := by
  unfold sessionkeyIntegrity
  split
  · rfl
  · split <;> rfl

/-- Claim C3: the parsed record never depends on the filename-derived
canonical key — on mismatch (and on match alike) the sessionkey entry, and the
whole record, are exactly what extraction, autosave merge and deduplication
produced; the value is never rewritten to the filename-derived one. -/
theorem claim_C3_sessionkey_never_rewritten (doc : PdfModel) (mapping : Dict)
    (autosave : Option Dict) (ck ck' : String) :
    parse_pdf_to_csv doc mapping autosave ck = parse_pdf_to_csv doc mapping autosave ck'
      ∧ (∀ record, parse_pdf_to_csv doc mapping autosave ck = Except.ok record →
          record = parseCore (extractedRaw doc) mapping autosave) := by
  constructor
  · simp only [parse_pdf_to_csv, sessionkeyIntegrity_id]
  · intro record h
    revert h
    unfold parse_pdf_to_csv
    split
    · split
      · intro h; cases h
      · rw [sessionkeyIntegrity_id]
        intro h
        cases h
        rfl
    · intro h; cases h

/-- Claim C5: extraction fails exactly when no strategy yields any fields —
a success (an `Except.ok` record) exists if and only if the document has a
form structure and the selected strategies extracted a non-empty field set;
a form-less document raises `'PDF contains no form data'`, an empty extraction
raises the `'No form fields found…'` error, and the mapping table plays no
part in the failure condition (fields present but none mapped is not an
error). -/
theorem claim_C5_error_exactly_no_fields (doc : PdfModel) (mapping : Dict)
    (autosave : Option Dict) (ck : String) :
    ((∃ record, parse_pdf_to_csv doc mapping autosave ck = Except.ok record) ↔
        ((doc.pdfType = "AcroForm" ∨ doc.pdfType = "XFA") ∧ extractedRaw doc ≠ []))
      ∧ (¬(doc.pdfType = "AcroForm" ∨ doc.pdfType = "XFA") →
          parse_pdf_to_csv doc mapping autosave ck
            = Except.error "PDF contains no form data")
      ∧ ((doc.pdfType = "AcroForm" ∨ doc.pdfType = "XFA") → extractedRaw doc = [] →
          parse_pdf_to_csv doc mapping autosave ck
            = Except.error "No form fields found in the selected PDF. Please ensure you are using a valid completed survey PDF.") := by
  unfold parse_pdf_to_csv
  refine ⟨?_, ?_, ?_⟩
  · constructor
    · rintro ⟨record, h⟩
      revert h
      split
      · rename_i htype
        split
        · intro h; cases h
        · rename_i hraw
          intro _
          simp only [Bool.or_eq_true, beq_iff_eq] at htype
          exact ⟨htype, by simpa [List.isEmpty_iff] using hraw⟩
      · intro h; cases h
    · rintro ⟨htype, hraw⟩
      split
      · split
        · rename_i hempty
          rw [List.isEmpty_iff] at hempty
          exact absurd hempty hraw
        · exact ⟨_, rfl⟩
      · rename_i htype'
        simp only [Bool.or_eq_true, beq_iff_eq] at htype'
        exact absurd htype htype'
  · intro htype
    split
    · rename_i h
      simp only [Bool.or_eq_true, beq_iff_eq] at h
      exact absurd h htype
    · rfl
  · intro htype hraw
    split
    · split
      · rfl
      · rename_i hne
        rw [List.isEmpty_iff] at hne
        exact absurd hraw hne
    · rename_i h
      simp only [Bool.or_eq_true, beq_iff_eq] at h
      exact absurd htype h

/-- Looking up the key just assigned yields the assigned value. -/
theorem pyGet_pySet_self (d : Dict) (k v : String) : pyGet (pySet d k v) k = some v := by
  induction d with
  | nil => simp [pySet, pyGet]
  | cons p t ih =>
    obtain ⟨a, b⟩ := p
    by_cases h : a == k
    · simp [pySet, pyGet, h]
    · simp [pySet, pyGet, h, ih]

/-- Assigning one key leaves every other key's lookup unchanged. -/
theorem pyGet_pySet_ne (d : Dict) (k v n : String) (h : k ≠ n) :
    pyGet (pySet d k v) n = pyGet d n := by
  induction d with
  | nil => simp [pySet, pyGet, fun hc => h (by simpa using hc)]
  | cons p t ih =>
    obtain ⟨a, b⟩ := p
    by_cases ha : a == k
    · have : a = k := by simpa using ha
      subst this
      simp [pySet, pyGet, ha, fun hc => h (by simpa using hc)]
    · by_cases hn : a == n <;> simp [pySet, pyGet, ha, hn, ih]

/-- `dictKeys` on a cons cell. -/
theorem dictKeys_cons (a b : String) (t : Dict) :
    dictKeys ((a, b) :: t) = a :: dictKeys t := rfl

/-- The key just assigned is present. -/
theorem pyMem_pySet_self (d : Dict) (k v : String) : pyMem (pySet d k v) k = true := by
  induction d with
  | nil => simp [pySet, pyMem]
  | cons p t ih =>
    obtain ⟨a, b⟩ := p
    by_cases h : a == k
    · simp [pySet, pyMem, h]
    · simp [pySet, pyMem, h, ih]

/-- Assignment never removes a key. -/
theorem pyMem_pySet_mono (d : Dict) (k v n : String) (h : pyMem d n = true) :
    pyMem (pySet d k v) n = true := by
  induction d with
  | nil => simp [pyMem] at h
  | cons p t ih =>
    obtain ⟨a, b⟩ := p
    cases ha : a == k
    · rw [show pySet ((a, b) :: t) k v = (a, b) :: pySet t k v by simp [pySet, ha]]
      simp only [pyMem, Bool.or_eq_true] at h ⊢
      rcases h with h | h
      · exact Or.inl h
      · exact Or.inr (ih h)
    · rw [show pySet ((a, b) :: t) k v = (k, v) :: t by simp [pySet, ha]]
      have hak : a = k := by simpa using ha
      subst hak
      simpa [pyMem] using h

/-- A key of an assigned dictionary is the assigned key or an old key. -/
theorem mem_dictKeys_pySet (d : Dict) (k v n : String)
    (h : n ∈ dictKeys (pySet d k v)) : n = k ∨ n ∈ dictKeys d := by
  induction d with
  | nil =>
    rcases List.mem_cons.mp (by simpa [pySet, dictKeys_cons] using h) with h1 | h1
    · exact Or.inl h1
    · cases h1
  | cons p t ih =>
    obtain ⟨a, b⟩ := p
    cases ha : a == k
    · rw [show pySet ((a, b) :: t) k v = (a, b) :: pySet t k v by simp [pySet, ha],
        dictKeys_cons] at h
      rcases List.mem_cons.mp h with h1 | h1
      · subst h1
        exact Or.inr (by rw [dictKeys_cons]; exact List.mem_cons_self _ _)
      · rcases ih h1 with h2 | h2
        · exact Or.inl h2
        · exact Or.inr (by rw [dictKeys_cons]; exact List.mem_cons_of_mem _ h2)
    · rw [show pySet ((a, b) :: t) k v = (k, v) :: t by simp [pySet, ha],
        dictKeys_cons] at h
      have hak : a = k := by simpa using ha
      subst hak
      rcases List.mem_cons.mp h with h1 | h1
      · exact Or.inl h1
      · exact Or.inr (by rw [dictKeys_cons]; exact List.mem_cons_of_mem _ h1)

/-- A merge step touches only the sidecar entry's own (QID-lower-cased) key. -/
theorem mergeStep_pyGet_ne (d : Dict) (kv : String × String) (n : String)
    (h : qidKey kv.1 ≠ n) : pyGet (mergeStep d kv) n = pyGet d n := by
  unfold mergeStep
  split
  · exact pyGet_pySet_ne _ _ _ _ h
  · split
    · exact pyGet_pySet_ne _ _ _ _ h
    · rfl

/-- A non-empty parsed value survives the whole autosave loop. -/
theorem merge_keeps_nonempty (l : List (String × String)) :
    ∀ (d : Dict) (k s : String), s ≠ "" → pyGet d k = some s →
      pyGet (l.foldl mergeStep d) k = some s := by
  induction l with
  | nil => intro d k s _ h; exact h
  | cons kv t ih =>
    intro d k s hs h
    apply ih _ _ _ hs
    by_cases hk : qidKey kv.1 = k
    · unfold mergeStep
      rw [hk, h]
      simpa [hs] using h
    · rw [mergeStep_pyGet_ne _ _ _ hk]
      exact h

/-- Entries whose keyed key differs from `k` leave the lookup at `k` alone. -/
theorem merge_untouched (l : List (String × String)) :
    ∀ (d : Dict) (k : String), (∀ kv ∈ l, qidKey kv.1 ≠ k) →
      pyGet (l.foldl mergeStep d) k = pyGet d k := by
  induction l with
  | nil => intro d k _; rfl
  | cons kv t ih =>
    intro d k hall
    rw [List.foldl_cons, ih _ _ (fun kv' h => hall kv' (List.mem_cons_of_mem _ h))]
    exact mergeStep_pyGet_ne _ _ _ (hall kv (List.mem_cons_self _ _))

/-- Claim C4: the autosave merge is a pure gap-filler.  For an entry `(k, v)`
of the sidecar record (whose keyed keys are distinct, as keys of a JSON
object are): when the parsed record holds a non-empty value at the entry's
key, the merged record keeps the parsed value; when the parsed value is
absent or the empty string, the merged record holds the autosave value. -/
theorem claim_C4_autosave_gap_filler (parsed autosave : Dict) (k v : String)
    (hmem : (k, v) ∈ autosave)
    (hnodup : (autosave.map (fun kv => qidKey kv.1)).Nodup) :
    (∀ s, s ≠ "" → pyGet parsed (qidKey k) = some s →
        pyGet (mergeAutosave parsed autosave) (qidKey k) = some s)
      ∧ ((pyGet parsed (qidKey k) = none ∨ pyGet parsed (qidKey k) = some "") →
        pyGet (mergeAutosave parsed autosave) (qidKey k) = some v) := by
  constructor
  · intro s hs h
    exact merge_keeps_nonempty autosave parsed (qidKey k) s hs h
  · intro hgap
    unfold mergeAutosave
    induction autosave generalizing parsed with
    | nil => cases hmem
    | cons kv t ih =>
      rcases List.mem_cons.mp hmem with heq | hmemt
      · have hkv : qidKey kv.1 = qidKey k := by rw [← heq]
        have hv : kv.2 = v := by rw [← heq]
        have hset : pyGet (mergeStep parsed kv) (qidKey k) = some v := by
          unfold mergeStep
          rw [hkv]
          rcases hgap with h | h <;> rw [h] <;> simp [hv, pyGet_pySet_self]
        have hrest : ∀ kv' ∈ t, qidKey kv'.1 ≠ qidKey k := by
          intro kv' ht hcontra
          exact (List.nodup_cons.mp hnodup).1
            (by show qidKey kv.1 ∈ t.map (fun kv => qidKey kv.1)
                rw [hkv, ← hcontra]
                exact List.mem_map_of_mem _ ht)
        rw [List.foldl_cons, merge_untouched t _ _ hrest]
        exact hset
      · have hne : qidKey kv.1 ≠ qidKey k := by
          intro hcontra
          exact (List.nodup_cons.mp hnodup).1
            (by show qidKey kv.1 ∈ t.map (fun kv => qidKey kv.1)
                rw [hcontra]
                exact List.mem_map_of_mem _ hmemt)
        rw [List.foldl_cons]
        exact ih (mergeStep parsed kv) hmemt (List.nodup_cons.mp hnodup).2
          (by rw [mergeStep_pyGet_ne _ _ _ hne]; exact hgap)

/-- Claim C4 witness: `{"a": "X"}` merged with autosave `{"a": "Y", "b": "Z"}`
keeps `"X"` at `"a"` and gains `"Z"` at `"b"`. -/
theorem claim_C4_witness :
    pyGet (mergeAutosave [("a", "X")] [("a", "Y"), ("b", "Z")]) "a" = some "X"
      ∧ pyGet (mergeAutosave [("a", "X")] [("a", "Y"), ("b", "Z")]) "b" = some "Z" := by
  constructor
  · exact (claim_C4_autosave_gap_filler [("a", "X")] [("a", "Y"), ("b", "Z")] "a" "Y"
      (by decide) (by decide)).1 "X" (by decide) rfl
  · exact (claim_C4_autosave_gap_filler [("a", "X")] [("a", "Y"), ("b", "Z")] "b" "Z"
      (by decide) (by decide)).2 (Or.inl rfl)

/-- Membership in the stable descending insertion. -/
theorem mem_insDescLen (x : String) (l : List String) (a : String) :
    a ∈ insDescLen x l ↔ a = x ∨ a ∈ l := by
  induction l with
  | nil => simp [insDescLen]
  | cons y ys ih =>
    unfold insDescLen
    split
    · simp
    · simp only [List.mem_cons, ih]
      tauto

/-- The stable descending insertion keeps lengths sorted (non-increasing). -/
theorem pairwise_insDescLen (x : String) (l : List String)
    (h : l.Pairwise (fun a b => b.length ≤ a.length)) :
    (insDescLen x l).Pairwise (fun a b => b.length ≤ a.length) := by
  induction l with
  | nil => simp [insDescLen]
  | cons y ys ih =>
    rcases List.pairwise_cons.mp h with ⟨hy, hys⟩
    unfold insDescLen
    split
    · rename_i hlt
      refine List.pairwise_cons.mpr ⟨?_, h⟩
      intro z hz
      rcases List.mem_cons.mp hz with h1 | h1
      · subst h1; omega
      · have := hy z h1; omega
    · rename_i hge
      refine List.pairwise_cons.mpr ⟨?_, ih hys⟩
      intro z hz
      rcases (mem_insDescLen x ys z).mp hz with h1 | h1
      · subst h1; omega
      · exact hy z h1

/-- Membership after folding insertions. -/
theorem mem_foldl_insDescLen (l : List String) :
    ∀ (acc : List String) (a : String),
      a ∈ l.foldl (fun s x => insDescLen x s) acc ↔ a ∈ acc ∨ a ∈ l := by
  induction l with
  | nil => intro acc a; simp
  | cons y ys ih =>
    intro acc a
    rw [List.foldl_cons, ih, mem_insDescLen]
    simp only [List.mem_cons]
    tauto

/-- Sortedness after folding insertions. -/
theorem pairwise_foldl_insDescLen (l : List String) :
    ∀ (acc : List String), acc.Pairwise (fun a b => b.length ≤ a.length) →
      (l.foldl (fun s x => insDescLen x s) acc).Pairwise (fun a b => b.length ≤ a.length) := by
  induction l with
  | nil => intro acc h; exact h
  | cons y ys ih =>
    intro acc h
    rw [List.foldl_cons]
    exact ih _ (pairwise_insDescLen y acc h)

/-- `sorted(keys, key=len, reverse=True)` is a permutation: same members. -/
theorem sortDescLen_mem (l : List String) (a : String) : a ∈ sortDescLen l ↔ a ∈ l := by
  unfold sortDescLen
  rw [mem_foldl_insDescLen]
  simp

/-- `sorted(keys, key=len, reverse=True)` has non-increasing lengths. -/
theorem sortDescLen_pairwise (l : List String) :
    (sortDescLen l).Pairwise (fun a b => b.length ≤ a.length) :=
  pairwise_foldl_insDescLen l [] (by simp)

/-- In a length-descending list, the first hit of `find?` is at least as long
as every hit. -/
theorem find_first_longest (p : String → Bool) :
    ∀ (l : List String), l.Pairwise (fun a b => b.length ≤ a.length) →
      ∀ k, l.find? p = some k → ∀ k' ∈ l, p k' = true → k'.length ≤ k.length := by
  intro l
  induction l with
  | nil => intro _ k hf; cases hf
  | cons y ys ih =>
    intro hp k hf k' hk' hpk'
    rcases List.pairwise_cons.mp hp with ⟨hy, hys⟩
    cases hpy : p y
    · rw [List.find?_cons_of_neg _ (by simp [hpy])] at hf
      rcases List.mem_cons.mp hk' with h1 | h1
      · subst h1; rw [hpk'] at hpy; cases hpy
      · exact ih hys k hf k' h1 hpk'
    · rw [List.find?_cons_of_pos _ hpy] at hf
      injection hf with hk
      subst hk
      rcases List.mem_cons.mp hk' with h1 | h1
      · subst h1; exact le_refl _
      · exact hy k' h1

/-- Claim C7: fuzzy matching tries the mapping keys in descending length
order and returns the first key whose normalized form is a substring of the
normalized field name, so every key it returns is a member, matches, and is at
least as long as any other matching key; in particular, for keys
`{"id": "A", "studentid": "B"}` the field `"Student-ID-2025"` resolves to
`"B"`, not `"A"`. -/
theorem claim_C7_fuzzy_longest_first (mapping : Dict) (field k : String)
    (h : fuzzy_find_in_mapping field (sortDescLen (dictKeys mapping)) = some k) :
    (k ∈ dictKeys mapping
      ∧ isSubstr (normalize_lookup_key k) (normalize_lookup_key field) = true
      ∧ ∀ k' ∈ dictKeys mapping,
          isSubstr (normalize_lookup_key k') (normalize_lookup_key field) = true →
            k'.length ≤ k.length)
    ∧ resolveMapped [("id", "A"), ("studentid", "B")]
        (sortDescLen (dictKeys [("id", "A"), ("studentid", "B")]))
        "Student-ID-2025" = some "B" := by
  have hfind : (sortDescLen (dictKeys mapping)).find?
      (fun key => isSubstr (normalize_lookup_key key) (normalize_lookup_key field))
        = some k := h
  refine ⟨⟨?_, ?_, ?_⟩, rfl⟩
  · exact (sortDescLen_mem _ _).mp (List.mem_of_find?_eq_some hfind)
  · simpa using List.find?_some hfind
  · intro k' hk' hsub
    exact find_first_longest _ _ (sortDescLen_pairwise _) k hfind k'
      ((sortDescLen_mem _ _).mpr hk') hsub

/-- Claim C7 witness: with keys `{"id": "A", "studentid": "B"}`, the field
`"Student-ID-2025"` fuzzy-matches the key `"studentid"` of the table and the
chain resolves it to `"B"`. -/
theorem claim_C7_witness :
    ("studentid" ∈ dictKeys [("id", "A"), ("studentid", "B")])
      ∧ resolveMapped [("id", "A"), ("studentid", "B")]
          (sortDescLen (dictKeys [("id", "A"), ("studentid", "B")]))
          "Student-ID-2025" = some "B" :=
  ⟨(claim_C7_fuzzy_longest_first [("id", "A"), ("studentid", "B")]
      "Student-ID-2025" "studentid" rfl).1.1,
   (claim_C7_fuzzy_longest_first [("id", "A"), ("studentid", "B")]
      "Student-ID-2025" "studentid" rfl).2⟩

/-- `Char.ofNat` is faithful below the surrogate range. -/
theorem char_toNat_ofNat_lt (n : Nat) (h : n < 55296) : (Char.ofNat n).toNat = n := by
  unfold Char.ofNat
  rw [dif_pos (Or.inl h)]
  rfl

/-- `Char.toLower` on an upper-case ASCII letter. -/
theorem toLower_eq_of_upper (c : Char) (h : c.toNat ≥ 65 ∧ c.toNat ≤ 90) :
    c.toLower = Char.ofNat (c.toNat + 32) := by
  have hdef : c.toLower
      = if c.toNat ≥ 65 ∧ c.toNat ≤ 90 then Char.ofNat (c.toNat + 32) else c := rfl
  rw [hdef, if_pos h]

/-- `Char.toLower` outside the upper-case ASCII range. -/
theorem toLower_eq_of_not_upper (c : Char) (h : ¬(c.toNat ≥ 65 ∧ c.toNat ≤ 90)) :
    c.toLower = c := by
  have hdef : c.toLower
      = if c.toNat ≥ 65 ∧ c.toNat ≤ 90 then Char.ofNat (c.toNat + 32) else c := rfl
  rw [hdef, if_neg h]

/-- Lower-casing a character is idempotent. -/
theorem toLower_idem (c : Char) : c.toLower.toLower = c.toLower := by
  by_cases h : c.toNat ≥ 65 ∧ c.toNat ≤ 90
  · rw [toLower_eq_of_upper c h]
    have h2 : (Char.ofNat (c.toNat + 32)).toNat = c.toNat + 32 :=
      char_toNat_ofNat_lt _ (by omega)
    exact toLower_eq_of_not_upper _ (by rw [h2]; omega)
  · rw [toLower_eq_of_not_upper c h]
    exact toLower_eq_of_not_upper c h

/-- Lower-casing a string is idempotent. -/
theorem strLower_idem (s : String) : strLower (strLower s) = strLower s := by
  show String.mk ((s.data.map Char.toLower).map Char.toLower)
      = String.mk (s.data.map Char.toLower)
  rw [List.map_map]
  exact congrArg String.mk (List.map_congr_left (fun c _ => toLower_idem c))

/-- The key the `QID` normalization produces is stable: if it still looks like
a QID name, it already equals its own lower-casing. -/
theorem qidKey_lower_fixed (x : String) :
    qidPrefixB (qidKey x) = true → qidKey x = strLower (qidKey x) := by
  unfold qidKey
  by_cases h : qidPrefixB x = true
  · rw [if_pos h]
    intro _
    exact (strLower_idem x).symm
  · rw [if_neg h]
    intro hx
    exact absurd hx h

/-- The final key of the mapping loop is stable under QID lower-casing. -/
theorem finalKey_lower_fixed (mapping : Dict) (sortedKeys : List String) (actual : String) :
    qidPrefixB (finalKey mapping sortedKeys actual) = true →
      finalKey mapping sortedKeys actual = strLower (finalKey mapping sortedKeys actual) := by
  unfold finalKey
  exact qidKey_lower_fixed _

/-- Invariance of a key predicate under a dictionary fold whose step only adds
keys satisfying it. -/
theorem foldl_keys_pred {α : Type} (P : String → Prop) (f : Dict → α → Dict)
    (hf : ∀ d x n, n ∈ dictKeys (f d x) → P n ∨ n ∈ dictKeys d) :
    ∀ (l : List α) (init : Dict), (∀ n ∈ dictKeys init, P n) →
      ∀ n ∈ dictKeys (l.foldl f init), P n := by
  intro l
  induction l with
  | nil => intro init h n hn; exact h n hn
  | cons x t ih =>
    intro init h n hn
    refine ih (f init x) ?_ n hn
    intro m hm
    rcases hf init x m hm with h1 | h1
    · exact h1
    · exact h m h1

/-- A merge step only adds the sidecar entry's (QID-lower-cased) key. -/
theorem mem_dictKeys_mergeStep (d : Dict) (kv : String × String) (n : String)
    (h : n ∈ dictKeys (mergeStep d kv)) : n = qidKey kv.1 ∨ n ∈ dictKeys d := by
  unfold mergeStep at h
  split at h
  · exact mem_dictKeys_pySet _ _ _ _ h
  · split at h
    · exact mem_dictKeys_pySet _ _ _ _ h
    · exact Or.inr h

/-- Claim C9 (counterexample): the key invariant fails on the final record —
the raw field `term_QID5` is unmapped, is kept under its own name, and
deduplication then strips the `term_` prefix verbatim, leaving the
upper-case key `QID5` in the returned record. -/
theorem claim_C9_counterexample :
    parseCore [("term_QID5", "7")] [] none = [("QID5", "7")]
      ∧ qidPrefixB "QID5" = true
      ∧ ("QID5" : String) ≠ strLower "QID5" := by
  decide

/-- Claim C9 (amended): after mapping resolution and the autosave merge every
key that names a QID-style id is fully lower-cased; the subsequent
deduplication preserves existing keys but its `term_` collapse can introduce a
key that violates the invariant, so the guarantee holds for the record before
deduplication. -/
theorem claim_C9_qid_keys_lowercase (raw mapping autosave : Dict) :
    ∀ n ∈ dictKeys (mergeAutosave (mapStage raw mapping) autosave),
      qidPrefixB n = true → n = strLower n := by
  have hmap : ∀ n ∈ dictKeys (mapStage raw mapping),
      qidPrefixB n = true → n = strLower n := by
    unfold mapStage
    refine foldl_keys_pred _ _ ?_ raw [] ?_
    · intro d kv n hn
      rcases mem_dictKeys_pySet _ _ _ _ hn with h1 | h1
      · exact Or.inl (by rw [h1]; exact finalKey_lower_fixed _ _ _)
      · exact Or.inr h1
    · intro n hn
      cases hn
  unfold mergeAutosave
  refine foldl_keys_pred _ _ ?_ autosave _ hmap
  intro d kv n hn
  rcases mem_dictKeys_mergeStep _ _ _ hn with h1 | h1
  · exact Or.inl (by rw [h1]; exact qidKey_lower_fixed _)
  · exact Or.inr h1

/-- Claim C9 witness: the raw field `QID7` is recorded under `qid7`, which is
its own lower-casing. -/
theorem claim_C9_witness : ("qid7" : String) = strLower "qid7" :=
  claim_C9_qid_keys_lowercase [("QID7", "1")] [] [] "qid7" (by decide) (by decide)

/-- Membership survives the rest of a dictionary-building fold. -/
theorem pyMem_foldl_pySet_mono (f g : String × String → String)
    (l : List (String × String)) :
    ∀ (init : Dict) (k : String), pyMem init k = true →
      pyMem (l.foldl (fun d x => pySet d (f x) (g x)) init) k = true := by
  induction l with
  | nil => intro init k h; exact h
  | cons x t ih =>
    intro init k h
    rw [List.foldl_cons]
    exact ih _ _ (pyMem_pySet_mono _ _ _ _ h)

/-- Every processed entry leaves its key present in the built dictionary. -/
theorem pyMem_foldl_pySet_self (f g : String × String → String)
    (l : List (String × String)) :
    ∀ (init : Dict) (kv : String × String), kv ∈ l →
      pyMem (l.foldl (fun d x => pySet d (f x) (g x)) init) (f kv) = true := by
  induction l with
  | nil => intro _ _ h; cases h
  | cons x t ih =>
    intro init kv hm
    rw [List.foldl_cons]
    rcases List.mem_cons.mp hm with heq | ht
    · subst heq
      exact pyMem_foldl_pySet_mono f g t _ _ (pyMem_pySet_self _ _ _)
    · exact ih _ _ ht

/-- A field the whole resolution chain fails to map is recorded under its own
(QID-lower-cased) name. -/
theorem finalKey_of_unmapped (mapping : Dict) (sortedKeys : List String) (actual : String)
    (h : resolveMapped mapping sortedKeys actual = none) :
    finalKey mapping sortedKeys actual = qidKey actual := by
  unfold finalKey
  rw [h]

/-- Claim C6 (counterexample): an unmapped field can still vanish from the
final record — with an empty mapping table, the raw field `term_x` (value
`"2"`, alongside `x` with value `"1"`) matches no strategy, yet the
deduplication pass drops it because its `term_`-stripped base name `x` already
exists, so the returned record has no entry for `term_x` at all. -/
theorem claim_C6_counterexample :
    resolveMapped [] (sortDescLen (dictKeys [])) "term_x" = none
      ∧ parseCore [("x", "1"), ("term_x", "2")] [] none = [("x", "1")]
      ∧ pyMem (parseCore [("x", "1"), ("term_x", "2")] [] none) "term_x" = false := by
  decide

/-- Claim C6 (amended): through the mapping stage, a raw field that matches no
mapping-table entry under any resolution strategy is always recorded under its
original (QID-lower-cased) name — unmapped fields are preserved by field
mapping; the later deduplication pass, however, may still drop such an entry
(value-group collapse or `term_` folding). -/
theorem claim_C6_unmapped_kept_by_mapping (raw mapping : Dict) (n v : String)
    (hmem : (n, v) ∈ raw)
    (hun : resolveMapped mapping (sortDescLen (dictKeys mapping)) n = none) :
    pyMem (mapStage raw mapping) (qidKey n) = true := by
  unfold mapStage
  have hkey := pyMem_foldl_pySet_self
    (fun kv => finalKey mapping (sortDescLen (dictKeys mapping)) kv.1)
    (fun kv => stripSlash kv.2) raw [] (n, v) hmem
  rw [show (fun kv : String × String =>
      finalKey mapping (sortDescLen (dictKeys mapping)) kv.1) (n, v)
        = qidKey n from finalKey_of_unmapped _ _ _ hun] at hkey
  exact hkey

/-- Claim C6 witness: with the empty mapping table, the unmapped raw field
`term_x` is present (under its own name) in the mapping stage's output. -/
theorem claim_C6_witness :
    pyMem (mapStage [("x", "1"), ("term_x", "2")] []) "term_x" = true :=
  claim_C6_unmapped_kept_by_mapping [("x", "1"), ("term_x", "2")] [] "term_x" "2"
    (by decide) (by decide)

/-- A widget annotation as `_scan_page_annotations` reads it: the `/T` field
name, the `/TU` tooltip and `/TM` mapping-name alternates, the `/FT` field
type, the `/Ff` field-flag word (the source's `annot.get("/Ff", 0)` default is
folded into the `Nat`), the `/AS` appearance state and the `/V` value. -/
structure Annot where
  T : Option String
  TU : Option String
  TM : Option String
  FT : Option String
  Ff : Nat
  AS : Option String
  V : Option String

/-- The name `_scan_page_annotations` gives an annotation: `/T` (skipping an
absent or empty name), superseded by `/TU` or `/TM` when that alternate is
truthy and contains `QID` upper-cased. -/
def annotFieldName (a : Annot) : Option String :=
  match a.T with
  | none => none
  | some t =>
    if t == "" then none
    else
      match pyOrStr a.TU a.TM with
      | some alt =>
        if alt != "" && isSubstr "QID" (strUpper alt) then some alt else some t
      | none => some t

/-- The source's radio-button test: a `/Btn` field whose `/Ff` flags have the
radio bit `1 << 15` set. -/
def annotIsRadio (a : Annot) : Bool :=
  a.FT == some "/Btn" && (a.Ff &&& (1 <<< 15) != 0)

/-- One annotation of `_scan_page_annotations`: a radio widget contributes its
appearance state only when that state is truthy and not the `/Off` sentinel;
any other field records its `/V` value (empty string when absent) unless the
name is already present. -/
def processAnnot (fields : Dict) (a : Annot) : Dict :=
  match annotFieldName a with
  | none => fields
  | some name =>
    if annotIsRadio a then
      match a.AS with
      | some s => if s != "" && s != "/Off" then pySet fields name s else fields
      | none => fields
    else
      if pyMem fields name then fields
      else pySet fields name ((a.V).getD "")

/-- `_scan_page_annotations` of `pdf_tools.py` over the pages' annotation
lists (a page whose `/Annots` is absent or empty is the empty list; the
source's per-page exception guard has no counterpart because the model cannot
fail). -/
def scan_page_annotations (pages : List (List Annot)) : Dict :=
  pages.foldl (fun fields page => page.foldl processAnnot fields) []

/-- An annotation that is a radio widget with an absent, empty or `/Off`
appearance state contributes nothing. -/
theorem processAnnot_radio_off (fields : Dict) (a : Annot)
    (hr : annotIsRadio a = true)
    (hAS : a.AS = none ∨ a.AS = some "" ∨ a.AS = some "/Off") :
    processAnnot fields a = fields := by
  unfold processAnnot
  cases hname : annotFieldName a with
  | none => rfl
  | some name =>
    dsimp only
    rw [if_pos hr]
    rcases hAS with h | h | h <;> rw [h] <;> simp

/-- Processing any annotation can only leave a lookup unchanged or write at
the annotation's own name. -/
theorem processAnnot_pyGet_other (fields : Dict) (a : Annot) (n : String)
    (hno : ∀ m, annotFieldName a = some m → m ≠ n) :
    pyGet (processAnnot fields a) n = pyGet fields n := by
  unfold processAnnot
  cases hname : annotFieldName a with
  | none => rfl
  | some m =>
    have hm : m ≠ n := hno m hname
    dsimp only
    split
    · split
      · split
        · exact pyGet_pySet_ne _ _ _ _ hm
        · rfl
      · rfl
    · split
      · rfl
      · exact pyGet_pySet_ne _ _ _ _ hm

/-- Folding a page keeps `n` absent when every annotation named `n` is an
unselected radio widget. -/
theorem foldl_processAnnot_none (l : List Annot) :
    ∀ (fields : Dict) (n : String),
      (∀ a ∈ l, annotFieldName a = some n →
        annotIsRadio a = true ∧ (a.AS = none ∨ a.AS = some "" ∨ a.AS = some "/Off")) →
      pyGet fields n = none → pyGet (l.foldl processAnnot fields) n = none := by
  induction l with
  | nil => intro fields n _ h; exact h
  | cons a t ih =>
    intro fields n hall h
    rw [List.foldl_cons]
    refine ih _ _ (fun a' ha' => hall a' (List.mem_cons_of_mem _ ha')) ?_
    by_cases hn : annotFieldName a = some n
    · rcases hall a (List.mem_cons_self _ _) hn with ⟨hr, hAS⟩
      rw [processAnnot_radio_off _ _ hr hAS]
      exact h
    · rw [processAnnot_pyGet_other _ _ _ (fun m hm => by
        intro hmn
        exact hn (hmn ▸ hm))]
      exact h

/-- Claim C10: in the annotation scan, a radio-button widget whose appearance
state is absent or the `/Off` sentinel contributes no entry, so a radio group
none of whose widgets is selected is entirely absent from the extracted field
map; a non-radio annotation with an absent `/V`, by contrast, is recorded with
the empty string. -/
theorem claim_C10_radio_off_absent :
    (∀ (pages : List (List Annot)) (n : String),
      (∀ page ∈ pages, ∀ a ∈ page, annotFieldName a = some n →
        annotIsRadio a = true ∧ (a.AS = none ∨ a.AS = some "" ∨ a.AS = some "/Off")) →
      pyGet (scan_page_annotations pages) n = none)
    ∧ (∀ (fields : Dict) (a : Annot) (n : String),
        annotFieldName a = some n → annotIsRadio a = false → a.V = none →
        pyMem fields n = false →
        pyGet (processAnnot fields a) n = some "") := by
  constructor
  · intro pages n hall
    unfold scan_page_annotations
    have hgen : ∀ (ps : List (List Annot)) (fields : Dict),
        (∀ page ∈ ps, ∀ a ∈ page, annotFieldName a = some n →
          annotIsRadio a = true ∧ (a.AS = none ∨ a.AS = some "" ∨ a.AS = some "/Off")) →
        pyGet fields n = none →
        pyGet (ps.foldl (fun fields page => page.foldl processAnnot fields) fields) n
          = none := by
      intro ps
      induction ps with
      | nil => intro fields _ h; exact h
      | cons page rest ih =>
        intro fields hps h
        rw [List.foldl_cons]
        refine ih _ (fun p hp => hps p (List.mem_cons_of_mem _ hp)) ?_
        exact foldl_processAnnot_none page fields n
          (hps page (List.mem_cons_self _ _)) h
    exact hgen pages [] hall rfl
  · intro fields a n hname hr hV hmem
    unfold processAnnot
    rw [hname]
    dsimp only
    rw [if_neg (by simp [hr]), if_neg (by simp [hmem]), hV]
    exact pyGet_pySet_self _ _ _
